import Mathlib

/-!
Verification of the snpxcheck identity-vigilance engine.

This file gives a shallow embedding, in Lean 4, of the comparison and
signature engine of the repository (GeneticAnalyzer, ComparisonEngine /
IdentityVigilanceService, DataProcessor.merge_genotypes, the similarity
matrix), and proves or refutes the frozen claims about it.

Modelling conventions:
- a pandas cell is an `Option String`; `none` is NaN (a missing value);
- `pyStr` mirrors the Python `str(...)` conversion the code applies to
  cells (`str(nan) = "nan"`);
- Python string operations used by the code (`strip`, `lower`,
  `split("_")[-1]`, `replace("nan", "")`, substring test `k in name`)
  are re-implemented on `List Char` so that every definition is a plain
  structural recursion the kernel can evaluate;
- a DataFrame is either a list of typed rows (`PRow`, for the prepared
  table consumed by the intra/inter comparisons) or a header plus
  row-major cells (`DTable`, for `merge_genotypes` which is generic in
  the column set). Column access is first-match on the header, and
  pandas column assignment `df[name] = vals` is modelled as
  replace-if-present-else-append (`assignCol`).
- the sha1 signature digest is kept abstract: rows carry their
  `sigHash` field exactly as `_inter_comparison` reads the
  `signature_hash` column it is given.
-/

/-- Python `str()` applied to a cell: a missing value (NaN) prints as "nan". -/
def pyStr : Option String → String
  | none => "nan"
  | some s => s

/-- Characters removed by Python `str.strip()` (ASCII whitespace). -/
def trimChars (l : List Char) : List Char :=
  ((l.dropWhile Char.isWhitespace).reverse.dropWhile Char.isWhitespace).reverse

/-- Python `s.strip()`. -/
def strTrim (s : String) : String := String.mk (trimChars s.data)

/-- Python `s.lower()` (ASCII case folding, as used on keywords and "nan"). -/
def strLower (s : String) : String := String.mk (s.data.map Char.toLower)

/-- Tests whether `needle` is a prefix of `hay` (char lists). -/
def hasPre : List Char → List Char → Bool
  | [], _ => true
  | _ :: _, [] => false
  | a :: as, b :: bs => a == b && hasPre as bs

/-- Python substring test `needle in hay` on char lists. -/
def containsSub (needle : List Char) : List Char → Bool
  | [] => needle.isEmpty
  | c :: t => hasPre needle (c :: t) || containsSub needle t

/-- Python `needle in hay` on strings. -/
def strContainsSub (hay needle : String) : Bool := containsSub needle.data hay.data

/-- Python `s.startswith(p)`. -/
def strStarts (s p : String) : Bool := hasPre p.data s.data

/-- NEGATIVE_KEYWORDS from src/src/utils/config.py. -/
def NEGATIVE_KEYWORDS : List String := ["neg", "tem"]

/-- GeneticAnalyzer.is_negative_control: a falsy (null or empty) name gives
False, otherwise the lowered name is searched for each keyword. -/
def isNegativeControl : Option String → Bool
  | none => false
  | some s => if s == "" then false else NEGATIVE_KEYWORDS.any (fun k => strContainsSub (strLower s) k)

/-- GeneticAnalyzer.determine_sex on the two sex-marker cells
(`Allele 29` = X marker, `Allele 30` = Y marker). -/
def determineSex (x y : Option String) : String :=
  if x.isSome && x == some "X" && (y.isNone || y == some "") then "femme"
  else if x.isSome && x == some "X" && y.isSome && y == some "Y" then "homme"
  else "indéterminé"

/-- Per-cell transformation of GeneticAnalyzer.compute_signature:
`str(row[col]).strip()`. -/
def transformVal (v : Option String) : String := strTrim (pyStr v)

/-- Filter of GeneticAnalyzer.compute_signature: keep `a` when
`a and a.lower() != "nan"`. -/
def keepAllele (a : String) : Bool := a != "" && strLower a != "nan"

/-- GeneticAnalyzer.compute_signature: the ordered tuple of stripped cell
values of the canonical allele columns, keeping only non-empty entries whose
lowering is not "nan". `vals` is the list of cells of the canonical allele
columns, in canonical order. -/
def computeSignature (vals : List (Option String)) : List String :=
  (vals.map transformVal).filter keepAllele

/-- One row of the prepared table (output of GeneticAnalyzer.prepare_data):
the columns `_intra_comparison` and `_inter_comparison` read. `sigHash`
holds the `signature_hash` column; the code only ever compares it for
equality, so the digest itself is left abstract. The `signature_len`
column always equals `len(signature)` and is embedded as
`signature.length`. -/
structure PRow where
  sampleName : String
  patient : String
  isNeg : Bool
  genre : String
  signature : List String
  sigHash : String
  statusType : String
  statusDescription : String
deriving DecidableEq

/-- Accumulator pass of pandas `unique()` / `nunique()`: distinct values in
order of first appearance. -/
def uniqueAux {α : Type} [DecidableEq α] : List α → List α → List α
  | acc, [] => acc
  | acc, x :: xs => uniqueAux (if x ∈ acc then acc else acc ++ [x]) xs

/-- pandas `Series.unique()`: distinct values in order of first appearance
(`nunique()` is its length). -/
def pandasUnique {α : Type} [DecidableEq α] (l : List α) : List α := uniqueAux [] l

/-- First value of the `is_neg` column of a group (`group["is_neg"].iloc[0]`). -/
def headNeg : List PRow → Bool
  | [] => false
  | r :: _ => r.isNeg

/-- Status update that `_intra_comparison` applies uniformly to a patient
group, following the if/elif chain of
ComparisonEngine._intra_comparison (src/src/data/comparison.py, identical in
src/src/services/identity_vigilance.py and src/utils.py). `none` means the
group is left untouched. The guard
`df.loc[group.index, "status_type"].unique() == "success"` is the test that
the distinct statuses of the group are exactly `["success"]`, and
`df.loc[group.index, "signature_len"].any() > 0` is `True > 0` exactly when
some member has a non-zero signature length. -/
def groupStatusUpdate (g : List PRow) : Option (String × String) :=
  if g.length = 1 && !headNeg g then
    if pandasUnique (g.map (·.statusType)) = ["success"] then
      some ("warning", "Echantillon unique")
    else none
  else if g.length = 1 && headNeg g then
    if g.any (fun r => r.signature.length != 0) then
      some ("error", "Contrôle négatif avec alleles")
    else if pandasUnique (g.map (·.statusType)) = ["success"] then
      some ("info", "Contrôle négatif")
    else none
  else if 1 < (pandasUnique (g.map (·.signature))).length then
    if pandasUnique (g.map (·.statusType)) = ["success"] then
      some ("error", "Incohérente de SNPs")
    else none
  else if 1 < (pandasUnique (g.map (·.genre))).length then
    if pandasUnique (g.map (·.statusType)) = ["success"] then
      some ("error", "Incohérence de genre")
    else none
  else none

/-- Applies a group status update to one row of the group. -/
def applyUpdate (u : Option (String × String)) (r : PRow) : PRow :=
  match u with
  | none => r
  | some (t, d) => { r with statusType := t, statusDescription := d }

/-- Patient group of a row: the rows of the table sharing its `Patient`
value, in original row order (the content of its `groupby("Patient")`
group). -/
def patientGroup (rows : List PRow) (p : String) : List PRow :=
  rows.filter (fun q => q.patient == p)

/-- Result row of `_intra_comparison` for row `r` of `rows`: the update of
the patient group of `r` applied to `r`. -/
def intraResult (rows : List PRow) (r : PRow) : PRow :=
  applyUpdate (groupStatusUpdate (patientGroup rows r.patient)) r

/-- ComparisonEngine._intra_comparison: every row receives the status its
patient group's rule produces; row order is preserved (the Python code
mutates the rows of each group in place). -/
def intraComparison (rows : List PRow) : List PRow :=
  rows.map (intraResult rows)

/-- ComparisonEngine._inter_comparison: restrict to rows with
`signature_len > 0`, group by `signature_hash`, and keep every bucket whose
rows span more than one distinct `Patient`. The Python code emits the kept
buckets sorted by hash; this embedding keeps the rows in original order,
which is the same multiset of rows. -/
def interComparison (rows : List PRow) : List PRow :=
  let filtered := rows.filter (fun r => decide (0 < r.signature.length))
  filtered.filter (fun r =>
    decide (1 < (pandasUnique ((filtered.filter
      (fun q => q.sigHash == r.sigHash)).map (·.patient))).length))

/-- ComparisonEngine.perform_inter_comparison sets
`error_count = len(df_inter)` on the result of `_inter_comparison`. -/
def interErrorCount (rows : List PRow) : Nat := (interComparison rows).length

/-- A generic DataFrame: a header of column names and row-major cells. -/
structure DTable where
  header : List String
  rows : List (List (Option String))
deriving DecidableEq

/-- Value of column `c` in a row: first-match lookup of `c` in the header,
walking the header and the row cells in parallel (`row[c]`). -/
def cellVal : List String → List (Option String) → String → Option String
  | [], _, _ => none
  | _ :: _, [], _ => none
  | h :: hs, v :: vs, c => if h == c then v else cellVal hs vs c

/-- Column `c` of a table, as the list of its per-row values (`df[c]`). -/
def getCol (t : DTable) (c : String) : List (Option String) :=
  t.rows.map (fun r => cellVal t.header r c)

/-- Replaces, in one row, the cell of the first header entry equal to `c`
with `newv`; the row is unchanged when `c` is absent. -/
def setCell : List String → List (Option String) → String → Option String → List (Option String)
  | [], r, _, _ => r
  | _ :: _, [], _, _ => []
  | h :: hs, v :: vs, c, newv => if h == c then newv :: vs else v :: setCell hs vs c newv

/-- pandas column assignment `df[name] = vals`: overwrite the column in
place when `name` is already a column, otherwise append it on the right. -/
def assignCol (t : DTable) (name : String) (vals : List (Option String)) : DTable :=
  if name ∈ t.header then
    { header := t.header,
      rows := (t.rows.zip vals).map (fun p => setCell t.header p.1 name p.2) }
  else
    { header := t.header ++ [name],
      rows := (t.rows.zip vals).map (fun p => p.1 ++ [p.2]) }

/-- Decimal digits of `n`, most significant first, computed with a fuel
argument so that the recursion is structural (call with `fuel > n`). -/
def decDigitsAux : Nat → Nat → List Char
  | 0, _ => []
  | fuel + 1, n =>
    if n < 10 then [Nat.digitChar n]
    else decDigitsAux fuel (n / 10) ++ [Nat.digitChar (n % 10)]

/-- Decimal rendering of a natural number, as the Python f-string
interpolation `f"Locus {idx}"` renders `idx`. -/
def natToDec (n : Nat) : String := String.mk (decDigitsAux (n + 1) n)

/-- Name of the merged column for pair index `idx` (1-based): `f"Locus {idx}"`. -/
def locusName (idx : Nat) : String := "Locus " ++ natToDec idx

/-- Python `s.split("_")[-1]` on char lists: the segment after the last
underscore (the whole list when there is none). -/
def lastSeg (l : List Char) : List Char :=
  l.foldl (fun acc c => if c == '_' then [] else acc ++ [c]) []

/-- Python `s.replace("nan", "")` on char lists: delete every occurrence of
the substring "nan", scanning left to right without overlap. -/
def delNan : List Char → List Char
  | 'n' :: 'a' :: 'n' :: rest => delNan rest
  | c :: rest => c :: delNan rest
  | [] => []

/-- Per-cell normalisation of the merge:
`str(row[a]).strip().split("_")[-1].replace("nan", "")`. -/
def normVal (v : Option String) : String :=
  String.mk (delNan (lastSeg (trimChars (pyStr v).data)))

/-- The `combine` closure of merge_genotypes: case analysis on the two
normalised values of an allele pair. -/
def combine (v1 v2 : Option String) : String :=
  let a := normVal v1
  let b := normVal v2
  if a == "" && b == "" then ""
  else if a != "" && b == "" then a
  else if a == "" && b != "" then b
  else if a == b then a
  else a ++ "/" ++ b

/-- Adjacent pairing of the allele columns:
`[(cols[i], cols[i+1]) for i in range(0, len(cols) - 1, 2)]`; an odd
trailing column is dropped. -/
def pairUp {α : Type} : List α → List (α × α)
  | a :: b :: rest => (a, b) :: pairUp rest
  | _ => []

/-- The assignment loop of merge_genotypes:
`for idx, (a1, a2) in enumerate(pairs, start=1): merged[f"Locus {idx}"] = df.apply(combine, axis=1)`.
Cell values are read from the original table `t`. -/
def addLoci (t : DTable) : DTable → Nat → List (String × String) → DTable
  | base, _, [] => base
  | base, i, (a, b) :: rest =>
    addLoci t
      (assignCol base (locusName i)
        (t.rows.map (fun r => some (combine (cellVal t.header r a) (cellVal t.header r b)))))
      (i + 1) rest

/-- DataProcessor.merge_genotypes (identical to
ComparisonEngine._merge_genotypes): keep the columns not starting with
"Allele", then assign one merged `Locus idx` column per adjacent pair of
"Allele" columns. -/
def mergeGenotypes (t : DTable) : DTable :=
  let keep := t.header.filter (fun c => !strStarts c "Allele")
  let base : DTable :=
    { header := keep, rows := t.rows.map (fun r => keep.map (fun c => cellVal t.header r c)) }
  addLoci t base 1 (pairUp (t.header.filter (fun c => strStarts c "Allele")))

/-- Position match of the similarity loop of `_sample_heatmap`: both values
missing counts as a match, both present and equal counts as a match, exactly
one missing (or both present and different) is a mismatch. -/
def matchPair (a b : Option String) : Bool :=
  match a, b with
  | none, none => true
  | some x, some y => x == y
  | _, _ => false

/-- Number of matching positions among the zipped value pairs
(`common_alleles`; `total_alleles` is the length of the zip). -/
def matchCount (ps : List (Option String × Option String)) : Nat :=
  ps.countP (fun p => matchPair p.1 p.2)

/-- Percent identity of two flattened sample vectors:
`100 * common / total` over the zipped positions, undefined (pd.NA) when
there is no position. -/
def identityPct (v1 v2 : List (Option String)) : Option ℚ :=
  let ps := v1.zip v2
  if 0 < ps.length then some ((matchCount ps : ℚ) / (ps.length : ℚ) * 100)
  else none

/-- Flattened comparison vector of the sample named `name`: the selected
cells (allele columns minus the sex markers, plus `Genre`) of every row
whose `Sample Name` equals `name`, flattened in row order
(`df[df["Sample Name"] == name][allele_columns].values.flatten()`). Each
element of `rows` is one table row, already projected to its `Sample Name`
and its selected cells. -/
def sampleVec (rows : List (String × List (Option String))) (name : String) : List (Option String) :=
  ((rows.filter (fun p => p.1 == name)).map Prod.snd).flatten

/-- Entry of the similarity matrix of `_sample_heatmap` for the pair of
sample names `(n1, n2)`. -/
def heatmapEntry (rows : List (String × List (Option String))) (n1 n2 : String) : Option ℚ :=
  identityPct (sampleVec rows n1) (sampleVec rows n2)

/-- Spec wording: a marker value is present when the slot is neither
missing nor the empty string. -/
def presentVal : Option String → Bool
  | none => false
  | some s => s != ""

/-- Spec wording: a marker value is empty when the slot is missing or holds
the empty string. -/
def emptyVal : Option String → Bool
  | none => true
  | some s => s == ""

/-- Modelled from the words of claim C6: Female whenever the X-marker value
is present and the Y-marker value is empty; Male whenever the X-marker
value is present and the Y-marker value equals "Y"; Undetermined otherwise. -/
def claimedSexSpec (x y : Option String) : String :=
  if presentVal x && emptyVal y then "femme"
  else if presentVal x && y == some "Y" then "homme"
  else "indéterminé"

/-- Amended reading of claim C6, following the code: the X marker must
equal "X" exactly (mere presence of a value is not enough). -/
def amendedSexSpec (x y : Option String) : String :=
  if x == some "X" then
    if emptyVal y then "femme"
    else if y == some "Y" then "homme"
    else "indéterminé"
  else "indéterminé"

/-- Modelled from the words of claim C4: trim, keep the suffix after the
last underscore, then normalise the literal value "nan" (the whole value,
not every occurrence of the substring) to empty. -/
def claimedNormVal (v : Option String) : String :=
  let s := String.mk (lastSeg (trimChars (pyStr v).data))
  if s == "nan" then "" else s

/-- Modelled from the words of claim C4: the per-pair combination rule
using the literal-"nan" normalisation. -/
def claimedCombine (v1 v2 : Option String) : String :=
  let a := claimedNormVal v1
  let b := claimedNormVal v2
  if a == "" && b == "" then ""
  else if a != "" && b == "" then a
  else if a == "" && b != "" then b
  else if a == b then a
  else a ++ "/" ++ b

/-- Decimal value of a digit string, inverse of `decDigitsAux` (used to
show decimal renderings are injective). -/
def decVal (l : List Char) : Nat :=
  l.foldl (fun acc c => acc * 10 + (c.toNat - '0'.toNat)) 0

/-- Sample used to refute the claimed global pre-pass: empty signature, not
a negative control, alone in its patient group. -/
def noPrepassRow : PRow :=
  ⟨"P7", "P7", false, "indéterminé", [], "h0", "success", ""⟩

/-- Table that refutes C10: it already has a column named "Locus 1". -/
def tClash : DTable :=
  ⟨["Locus 1", "Allele 1", "Allele 2"], [[some "x", some "05", some "06"]]⟩

/-- Table for the C10 witness: a metadata column and two allele columns. -/
def twTen : DTable :=
  ⟨["Sample Name", "Allele 1", "Allele 2"], [[some "P1", some "05", some "06"]]⟩

/-- Table that refutes C4: a value whose suffix contains "nan" strictly
inside it. -/
def tNan : DTable := ⟨["Allele 1", "Allele 2"], [[some "nana", none]]⟩

/-- Table for the C4 witness. -/
def twFour : DTable :=
  ⟨["Sample Name", "Allele 1", "Allele 2"], [[some "P1", some "05", some "06"]]⟩

/-! Helper lemmas about `pandasUnique`. -/

theorem mem_uniqueAux {α : Type} [DecidableEq α] (x : α) :
    ∀ (l acc : List α), x ∈ uniqueAux acc l ↔ x ∈ acc ∨ x ∈ l := by
  intro l
  induction l with
  | nil => intro acc; simp [uniqueAux]
  | cons y ys ih =>
    intro acc
    by_cases h : y ∈ acc
    · rw [uniqueAux, if_pos h, ih]
      constructor
      · rintro (hx | hx)
        · exact Or.inl hx
        · exact Or.inr (List.mem_cons_of_mem _ hx)
      · rintro (hx | hx)
        · exact Or.inl hx
        · rcases List.mem_cons.mp hx with rfl | hx
          · exact Or.inl h
          · exact Or.inr hx
    · rw [uniqueAux, if_neg h, ih]
      simp only [List.mem_append, List.mem_singleton, List.mem_cons]
      tauto

theorem nodup_uniqueAux {α : Type} [DecidableEq α] :
    ∀ (l acc : List α), acc.Nodup → (uniqueAux acc l).Nodup := by
  intro l
  induction l with
  | nil => intro acc h; exact h
  | cons y ys ih =>
    intro acc h
    by_cases hy : y ∈ acc
    · rw [uniqueAux, if_pos hy]; exact ih acc h
    · rw [uniqueAux, if_neg hy]
      refine ih _ ?_
      simp only [List.nodup_append, List.nodup_singleton, List.disjoint_singleton]
      exact ⟨h, trivial, hy⟩

theorem nodup_pandasUnique {α : Type} [DecidableEq α] (l : List α) :
    (pandasUnique l).Nodup :=
  nodup_uniqueAux l [] List.nodup_nil

theorem mem_pandasUnique_iff {α : Type} [DecidableEq α] (x : α) (l : List α) :
    x ∈ pandasUnique l ↔ x ∈ l := by
  rw [pandasUnique, mem_uniqueAux]
  simp

theorem uniqueAux_all_eq {α : Type} [DecidableEq α] (a : α) :
    ∀ l : List α, (∀ x ∈ l, x = a) → uniqueAux [a] l = [a] := by
  intro l
  induction l with
  | nil => intro _; rfl
  | cons y ys ih =>
    intro h
    have hy : y = a := h y (List.mem_cons_self _ _)
    rw [uniqueAux, if_pos (by simp [hy])]
    exact ih fun x hx => h x (List.mem_cons_of_mem _ hx)

theorem pandasUnique_all_eq {α : Type} [DecidableEq α] (a : α) (l : List α)
    (hne : l ≠ []) (h : ∀ x ∈ l, x = a) : pandasUnique l = [a] := by
  match l, hne with
  | y :: ys, _ =>
    have hy : y = a := h y (List.mem_cons_self _ _)
    rw [pandasUnique, uniqueAux, if_neg (by simp)]
    subst hy
    exact uniqueAux_all_eq y ys fun x hx => h x (List.mem_cons_of_mem _ hx)

theorem one_lt_pandasUnique_length_iff {α : Type} [DecidableEq α] (l : List α) :
    1 < (pandasUnique l).length ↔ ∃ a ∈ l, ∃ b ∈ l, a ≠ b := by
  constructor
  · intro h
    match hu : pandasUnique l with
    | [] => rw [hu] at h; simp at h
    | [c] => rw [hu] at h; simp at h
    | c :: d :: rest =>
      have hc : c ∈ l := (mem_pandasUnique_iff c l).mp (by rw [hu]; simp)
      have hd : d ∈ l := (mem_pandasUnique_iff d l).mp (by rw [hu]; simp)
      have hnd := nodup_pandasUnique l
      rw [hu] at hnd
      have : c ≠ d := by
        intro hcd
        subst hcd
        simp [List.nodup_cons] at hnd
      exact ⟨c, hc, d, hd, this⟩
  · rintro ⟨a, ha, b, hb, hab⟩
    by_contra hlen
    push_neg at hlen
    have ha' := (mem_pandasUnique_iff a l).mpr ha
    have hb' := (mem_pandasUnique_iff b l).mpr hb
    match hu : pandasUnique l with
    | [] => rw [hu] at ha'; simp at ha'
    | [c] =>
      rw [hu] at ha' hb'
      simp at ha' hb'
      exact hab (ha'.trans hb'.symm)
    | c :: d :: rest => rw [hu] at hlen; simp at hlen

/-! Helper lemmas about patient groups. -/

theorem mem_patientGroup_self (rows : List PRow) (r : PRow) (hr : r ∈ rows) :
    r ∈ patientGroup rows r.patient := by
  rw [patientGroup, List.mem_filter]
  exact ⟨hr, by simp⟩

theorem patientGroup_subset (rows : List PRow) (p : String) (q : PRow)
    (hq : q ∈ patientGroup rows p) : q ∈ rows :=
  (List.mem_filter.mp hq).1

theorem patientGroup_eq_singleton (rows : List PRow) (r : PRow) (hr : r ∈ rows)
    (hlen : (patientGroup rows r.patient).length = 1) :
    patientGroup rows r.patient = [r] := by
  obtain ⟨a, ha⟩ := List.length_eq_one.mp hlen
  have := mem_patientGroup_self rows r hr
  rw [ha] at this ⊢
  simp at this
  rw [this]

/-- Under prepared input (every status is "success"), the guard
`unique(status) == "success"` of a non-empty group holds. -/
theorem statusGuard_of_prepared (rows : List PRow)
    (hprep : ∀ x ∈ rows, x.statusType = "success") (p : String)
    (hne : patientGroup rows p ≠ []) :
    pandasUnique ((patientGroup rows p).map (·.statusType)) = ["success"] := by
  refine pandasUnique_all_eq "success" _ (by simpa) ?_
  intro x hx
  rcases List.mem_map.mp hx with ⟨q, hq, rfl⟩
  exact hprep q (patientGroup_subset rows p q hq)

/-- C5: in intra-patient classification a singleton negative-control group
is given status Error with description "Contrôle négatif avec alleles"
(negative control with alleles present) when the signature of its sample is
non-empty, and status Info with description "Contrôle négatif" (negative
control) when the signature is empty. -/
theorem claim5_theorem (rows : List PRow)
    (hprep : ∀ x ∈ rows, x.statusType = "success")
    (r : PRow) (hr : r ∈ rows)
    (hlen : (patientGroup rows r.patient).length = 1)
    (hneg : r.isNeg = true) :
    (0 < r.signature.length →
      intraResult rows r =
        { r with statusType := "error",
                 statusDescription := "Contrôle négatif avec alleles" }) ∧
    (r.signature = [] →
      intraResult rows r =
        { r with statusType := "info", statusDescription := "Contrôle négatif" }) := by
  have hg := patientGroup_eq_singleton rows r hr hlen
  have hst := hprep r hr
  rw [intraResult, hg]
  constructor
  · intro hsig
    have hl : (r.signature.length != 0) = true := by
      simp only [bne_iff_ne, ne_eq]
      omega
    simp [groupStatusUpdate, headNeg, hneg, applyUpdate, hl]
  · intro hsig
    simp [groupStatusUpdate, headNeg, hneg, applyUpdate, hsig, pandasUnique,
      uniqueAux, hst]

/-- Witness for C5 at a concrete table: a lone negative control with one
allele is flagged Error, and with no alleles Info. -/
theorem claim5_witness :
    intraResult [⟨"neg1", "neg1", true, "indéterminé", ["05"], "h1", "success", ""⟩]
        ⟨"neg1", "neg1", true, "indéterminé", ["05"], "h1", "success", ""⟩
      = ⟨"neg1", "neg1", true, "indéterminé", ["05"], "h1", "error",
          "Contrôle négatif avec alleles"⟩ :=
  (claim5_theorem _ (by decide) _ (by decide) (by decide) (by decide)).1 (by decide)

/-- C3: in a patient group of more than one sample, inconsistent signatures
give every member Error "Incohérente de SNPs" (inconsistent SNPs); with
consistent signatures but inconsistent inferred sex, every member gets
Error "Incohérence de genre" (sex inconsistency) — the signature rule is
tested first. -/
theorem claim3_theorem (rows : List PRow)
    (hprep : ∀ x ∈ rows, x.statusType = "success")
    (r : PRow) (hr : r ∈ rows)
    (hlen : 1 < (patientGroup rows r.patient).length) :
    (1 < (pandasUnique ((patientGroup rows r.patient).map (·.signature))).length →
      intraResult rows r =
        { r with statusType := "error", statusDescription := "Incohérente de SNPs" }) ∧
    ((pandasUnique ((patientGroup rows r.patient).map (·.signature))).length = 1 →
      1 < (pandasUnique ((patientGroup rows r.patient).map (·.genre))).length →
      intraResult rows r =
        { r with statusType := "error", statusDescription := "Incohérence de genre" }) := by
  have hne : patientGroup rows r.patient ≠ [] := by
    intro h
    rw [h] at hlen
    simp at hlen
  have hguard := statusGuard_of_prepared rows hprep r.patient hne
  have hlen1 : ((patientGroup rows r.patient).length = 1) = False := by
    simp only [eq_iff_iff, iff_false]
    omega
  rw [intraResult]
  constructor
  · intro hsig
    simp [groupStatusUpdate, applyUpdate, hlen1, hsig, hguard]
  · intro hsig hgen
    have hsig' : ¬ 1 < (pandasUnique ((patientGroup rows r.patient).map (·.signature))).length := by
      omega
    simp [groupStatusUpdate, applyUpdate, hlen1, hsig', hgen, hguard]

/-- Characterisation of the colliding-bucket test of `_inter_comparison`:
among the signature-bearing rows, the bucket of `r` spans more than one
distinct patient exactly when some signature-bearing row shares the hash of
`r` but not its patient. -/
theorem interCollide_iff (rows : List PRow) (r : PRow)
    (hr : r ∈ rows) (hsig : 0 < r.signature.length) :
    (1 < (pandasUnique ((((rows.filter (fun x => decide (0 < x.signature.length))).filter
          (fun q => q.sigHash == r.sigHash))).map (·.patient))).length)
      ↔ ∃ q ∈ rows, q.signature ≠ [] ∧ q.sigHash = r.sigHash ∧ q.patient ≠ r.patient := by
  rw [one_lt_pandasUnique_length_iff]
  constructor
  · rintro ⟨a, ha, b, hb, hab⟩
    rcases List.mem_map.mp ha with ⟨qa, hqa, rfl⟩
    rcases List.mem_map.mp hb with ⟨qb, hqb, rfl⟩
    obtain ⟨hqa1, hqa2⟩ := List.mem_filter.mp hqa
    obtain ⟨hqb1, hqb2⟩ := List.mem_filter.mp hqb
    obtain ⟨hqa3, hqa4⟩ := List.mem_filter.mp hqa1
    obtain ⟨hqb3, hqb4⟩ := List.mem_filter.mp hqb1
    simp only [decide_eq_true_eq] at hqa4 hqb4
    rw [beq_iff_eq] at hqa2 hqb2
    by_cases h : qa.patient = r.patient
    · exact ⟨qb, hqb3, List.ne_nil_of_length_pos hqb4, hqb2, by rw [← h]; exact hab.symm⟩
    · exact ⟨qa, hqa3, List.ne_nil_of_length_pos hqa4, hqa2, h⟩
  · rintro ⟨q, hq, hqsig, hqhash, hqpat⟩
    have hqmem : q ∈ ((rows.filter (fun x => decide (0 < x.signature.length))).filter
        (fun x => x.sigHash == r.sigHash)) := by
      rw [List.mem_filter, List.mem_filter]
      refine ⟨⟨hq, ?_⟩, by rw [beq_iff_eq]; exact hqhash⟩
      simp [List.length_pos, hqsig]
    have hrmem : r ∈ ((rows.filter (fun x => decide (0 < x.signature.length))).filter
        (fun x => x.sigHash == r.sigHash)) := by
      rw [List.mem_filter, List.mem_filter]
      exact ⟨⟨hr, by simpa using hsig⟩, by simp⟩
    exact ⟨q.patient, List.mem_map_of_mem _ hqmem, r.patient,
      List.mem_map_of_mem _ hrmem, hqpat⟩

/-- C2: the inter-patient comparison result holds exactly the input rows
with a non-empty signature whose signature hash is shared by some
signature-bearing row of a different patient (so each colliding hash bucket
is reported whole, and rows of non-colliding buckets are omitted), and
`errors_inter` counts all rows of all colliding buckets. -/
theorem claim2_theorem (rows : List PRow) :
    (∀ r : PRow,
      r ∈ interComparison rows ↔
        r ∈ rows ∧ r.signature ≠ [] ∧
          ∃ q ∈ rows, q.signature ≠ [] ∧ q.sigHash = r.sigHash ∧ q.patient ≠ r.patient) ∧
    interErrorCount rows =
      rows.countP (fun r => decide (r.signature ≠ [] ∧
        ∃ q ∈ rows, q.signature ≠ [] ∧ q.sigHash = r.sigHash ∧ q.patient ≠ r.patient)) := by
  constructor
  · intro r
    simp only [interComparison, List.mem_filter, decide_eq_true_eq]
    constructor
    · rintro ⟨⟨hr, hsig⟩, hcoll⟩
      exact ⟨hr, List.ne_nil_of_length_pos hsig,
        (interCollide_iff rows r hr hsig).mp hcoll⟩
    · rintro ⟨hr, hsig, hex⟩
      have hsig' : 0 < r.signature.length := List.length_pos.mpr hsig
      exact ⟨⟨hr, hsig'⟩, (interCollide_iff rows r hr hsig').mpr hex⟩
  · rw [interErrorCount, List.countP_eq_length_filter]
    simp only [interComparison]
    rw [List.filter_filter]
    refine congrArg List.length (List.filter_congr ?_)
    intro x hx
    by_cases hsig : 0 < x.signature.length
    · have h1 : decide (0 < x.signature.length) = true := by simpa using hsig
      have h2 : x.signature ≠ [] := List.ne_nil_of_length_pos hsig
      rw [Bool.eq_iff_iff]
      simp only [h1, Bool.and_true, Bool.true_and, Bool.and_eq_true, decide_eq_true_eq]
      constructor
      · intro h
        have h' : 0 < x.signature.length ∧
            1 < (pandasUnique ((((rows.filter (fun y => decide (0 < y.signature.length))).filter
              (fun q => q.sigHash == x.sigHash))).map (·.patient))).length := by
          tauto
        exact ⟨h2, (interCollide_iff rows x hx hsig).mp h'.2⟩
      · intro h
        have := (interCollide_iff rows x hx hsig).mpr h.2
        tauto
    · have h1 : decide (0 < x.signature.length) = false := by simpa using hsig
      have h2 : x.signature = [] := by
        refine List.eq_nil_of_length_eq_zero ?_
        omega
      rw [h1, Bool.and_false]
      simp [h2]

/-- Witness for C2 at a concrete table: two patients share a signature
hash, a third does not; the two colliding rows are reported and counted. -/
theorem claim2_witness :
    (⟨"A1", "A", false, "femme", ["05"], "h1", "success", ""⟩ : PRow) ∈
        interComparison
          [⟨"A1", "A", false, "femme", ["05"], "h1", "success", ""⟩,
           ⟨"B1", "B", false, "femme", ["05"], "h1", "success", ""⟩,
           ⟨"C1", "C", false, "femme", ["07"], "h2", "success", ""⟩] ∧
      interErrorCount
          [⟨"A1", "A", false, "femme", ["05"], "h1", "success", ""⟩,
           ⟨"B1", "B", false, "femme", ["05"], "h1", "success", ""⟩,
           ⟨"C1", "C", false, "femme", ["07"], "h2", "success", ""⟩] = 2 := by
  constructor
  · exact ((claim2_theorem _).1 _).mpr (by decide)
  · rw [(claim2_theorem _).2]
    decide

/-- Counterexample to C6: a present but non-"X" X-marker value with an
empty Y-marker slot. The claim (any present X value with empty Y gives
Female) would return Female, but determine_sex demands the exact string "X"
and returns Undetermined. -/
theorem claim6_counterexample :
    determineSex (some "W") none = "indéterminé" ∧
      claimedSexSpec (some "W") none = "femme" ∧
      ("indéterminé" : String) ≠ "femme" := by decide

/-- C6 amended: determine_sex returns Female exactly when the X marker
equals "X" and the Y marker is missing or empty, Male exactly when the X
marker equals "X" and the Y marker equals "Y", and Undetermined for every
other combination; all comparisons are exact-string. -/
theorem claim6_theorem (x y : Option String) :
    determineSex x y = amendedSexSpec x y := by
  cases x with
  | none => simp [determineSex, amendedSexSpec]
  | some s =>
    by_cases hs : s = "X"
    · subst hs
      cases y with
      | none => simp [determineSex, amendedSexSpec, emptyVal]
      | some t =>
        by_cases ht : t = ""
        · subst ht; simp [determineSex, amendedSexSpec, emptyVal]
        · by_cases ht2 : t = "Y"
          · subst ht2; simp [determineSex, amendedSexSpec, emptyVal]
          · have hbt : ((some t : Option String) == some "") = false := by
              simp [ht]
            have hbt2 : ((some t : Option String) == some "Y") = false := by
              simp [ht2]
            simp [determineSex, amendedSexSpec, emptyVal, hbt, hbt2, ht, ht2]
    · have hbs : ((some s : Option String) == some "X") = false := by
        simp [hs]
      simp [determineSex, amendedSexSpec, hbs]

/-- Correctness of the char-list prefix test. -/
theorem hasPre_iff (n : List Char) :
    ∀ h : List Char, hasPre n h = true ↔ ∃ t, h = n ++ t := by
  induction n with
  | nil =>
    intro h
    constructor
    · intro _
      exact ⟨h, rfl⟩
    · intro _
      rfl
  | cons a as ih =>
    intro h
    cases h with
    | nil =>
      simp only [hasPre, List.cons_append]
      constructor
      · intro hfalse; cases hfalse
      · rintro ⟨t, ht⟩; cases ht
    | cons b bs =>
      simp only [hasPre, Bool.and_eq_true, beq_iff_eq, ih bs, List.cons_append]
      constructor
      · rintro ⟨rfl, t, rfl⟩
        exact ⟨t, rfl⟩
      · rintro ⟨t, ht⟩
        injection ht with h1 h2
        exact ⟨h1.symm, t, h2⟩

/-- Correctness of the char-list substring test: it finds exactly the
infix decompositions. -/
theorem containsSub_iff (n : List Char) :
    ∀ h : List Char, containsSub n h = true ↔ ∃ p q, h = p ++ n ++ q := by
  intro h
  induction h with
  | nil =>
    simp only [containsSub, List.isEmpty_iff]
    constructor
    · intro hn
      exact ⟨[], [], by simp [hn]⟩
    · rintro ⟨p, q, hp⟩
      have h0 : p ++ n ++ q = [] := hp.symm
      simp only [List.append_eq_nil] at h0
      exact h0.1.2
  | cons c t ih =>
    simp only [containsSub, Bool.or_eq_true, hasPre_iff, ih]
    constructor
    · rintro (⟨q, hq⟩ | ⟨p, q, hp⟩)
      · exact ⟨[], q, by simpa using hq⟩
      · exact ⟨c :: p, q, by simp [hp]⟩
    · rintro ⟨p, q, hp⟩
      cases p with
      | nil =>
        left
        exact ⟨q, by simpa using hp⟩
      | cons d ds =>
        right
        injection hp with h1 h2
        exact ⟨ds, q, h2⟩

/-- C9: is_negative_control is false (without raising) on a null or empty
sample name, and on any other name it is true exactly when the lowered name
contains one of the fixed keywords as a substring. -/
theorem claim9_theorem :
    isNegativeControl none = false ∧
    isNegativeControl (some "") = false ∧
    ∀ s : String, isNegativeControl (some s) = true ↔
      ∃ k ∈ NEGATIVE_KEYWORDS, ∃ p q, (strLower s).data = p ++ k.data ++ q := by
  refine ⟨rfl, rfl, ?_⟩
  intro s
  rw [isNegativeControl]
  by_cases hs : s = ""
  · subst hs
    constructor
    · intro h
      exact absurd h (by decide)
    · rintro ⟨k, hk, p, q, hpq⟩
      exfalso
      have hk' : k.data ≠ [] := by
        have hk2 : k = "neg" ∨ k = "tem" := by
          simpa [NEGATIVE_KEYWORDS] using hk
        rcases hk2 with rfl | rfl
        · decide
        · decide
      have hlen : (p ++ k.data ++ q).length = 0 := by
        rw [← hpq]; decide
      simp only [List.length_append] at hlen
      have : k.data.length = 0 := by omega
      exact hk' (List.eq_nil_of_length_eq_zero this)
  · rw [if_neg (by simp [hs]), List.any_eq_true]
    simp only [strContainsSub, containsSub_iff]

/-- Witness for C9: "Temoin3" lowers to "temoin3", which contains the
keyword "tem". -/
theorem claim9_witness : isNegativeControl (some "Temoin3") = true :=
  (claim9_theorem.2.2 "Temoin3").mpr ⟨"tem", by decide, [], "oin3".data, by decide⟩

/-- Lists with equal images under a map with duplicate-free image are equal
when one is a permutation of the other. -/
theorem eq_of_perm_map_eq {α β : Type} :
    ∀ {l l' : List α} {f : α → β},
      l.Perm l' → l.map f = l'.map f → (l.map f).Nodup → l = l' := by
  intro l
  induction l with
  | nil =>
    intro l' f hperm _ _
    exact hperm.nil_eq
  | cons a t ih =>
    intro l' f hperm hmap hnd
    cases l' with
    | nil =>
      have := hperm.length_eq
      simp at this
    | cons b t' =>
      simp only [List.map_cons] at hmap
      injection hmap with h1 h2
      have hb : b ∈ a :: t := hperm.mem_iff.mpr (List.mem_cons_self b t')
      have hba : b = a := by
        rcases List.mem_cons.mp hb with h | h
        · exact h
        · exfalso
          have hfb : f b ∈ t.map f := List.mem_map_of_mem f h
          rw [← h1] at hfb
          exact (List.nodup_cons.mp hnd).1 hfb
      subst hba
      have ht : t = t' := ih hperm.cons_inv h2 (List.nodup_cons.mp hnd).2
      rw [ht]

/-- Counterexample to C7: swapping an allele value with an empty slot is a
non-identity permutation of the allele values across the canonical columns,
yet the computed signatures coincide (the empty entry is filtered out on
both sides). -/
theorem claim7_counterexample :
    computeSignature [some "A", none] = computeSignature [none, some "A"] ∧
      ([some "A", none] : List (Option String)) ≠ [none, some "A"] ∧
      ([some "A", none] : List (Option String)).Perm [none, some "A"] := by decide

/-- C7 amended: reordering allele values across the canonical columns
breaks signature equality whenever the reordering changes the filtered
tuple; in particular, when all (stripped) values of a sample are pairwise
distinct and all survive the filter, every non-identity permutation of them
yields a different signature even though the multiset of values is
unchanged. -/
theorem claim7_theorem (vals vals' : List (Option String))
    (hperm : vals.Perm vals') (hne : vals ≠ vals')
    (hnd : (vals.map transformVal).Nodup)
    (hkeep : ∀ v ∈ vals, keepAllele (transformVal v) = true) :
    computeSignature vals ≠ computeSignature vals' := by
  have h1 : computeSignature vals = vals.map transformVal := by
    rw [computeSignature]
    refine List.filter_eq_self.mpr ?_
    intro a ha
    rcases List.mem_map.mp ha with ⟨v, hv, rfl⟩
    exact hkeep v hv
  have h2 : computeSignature vals' = vals'.map transformVal := by
    rw [computeSignature]
    refine List.filter_eq_self.mpr ?_
    intro a ha
    rcases List.mem_map.mp ha with ⟨v, hv, rfl⟩
    exact hkeep v (hperm.mem_iff.mpr hv)
  intro heq
  rw [h1, h2] at heq
  exact hne (eq_of_perm_map_eq hperm heq hnd)

/-- Witness for the amended C7: swapping two distinct surviving allele
values changes the signature. -/
theorem claim7_witness :
    computeSignature [some "A", some "B"] ≠ computeSignature [some "B", some "A"] :=
  claim7_theorem _ _ (by decide) (by decide) (by decide) (by decide)

theorem matchPair_comm (a b : Option String) : matchPair a b = matchPair b a := by
  cases a with
  | none => cases b <;> rfl
  | some x =>
    cases b with
    | none => rfl
    | some y =>
      show (x == y) = (y == x)
      by_cases h : x = y
      · subst h; rfl
      · rw [beq_eq_false_iff_ne.mpr h, beq_eq_false_iff_ne.mpr (Ne.symm h)]

theorem matchCount_comm (v1 v2 : List (Option String)) :
    matchCount (v1.zip v2) = matchCount (v2.zip v1) := by
  rw [matchCount, matchCount, ← List.zip_swap v2 v1, List.countP_map]
  refine List.countP_congr ?_
  intro p _
  simp only [Function.comp_apply, Prod.fst_swap, Prod.snd_swap]
  rw [matchPair_comm p.2 p.1]

theorem matchCount_self : ∀ v : List (Option String), matchCount (v.zip v) = v.length := by
  intro v
  induction v with
  | nil => rfl
  | cons a t ih =>
    have ha : matchPair a a = true := by
      cases a
      · rfl
      · exact beq_self_eq_true _
    simp [matchCount, List.countP_cons, ha] at ih ⊢
    omega

/-- C8: the similarity matrix of `_sample_heatmap` is symmetric, and its
diagonal entries all equal 100 (for any sample present in the table, whose
flattened comparison vector is then non-empty). -/
theorem claim8_theorem :
    (∀ (rows : List (String × List (Option String))) (n1 n2 : String),
      heatmapEntry rows n1 n2 = heatmapEntry rows n2 n1) ∧
    (∀ (rows : List (String × List (Option String))) (n : String),
      sampleVec rows n ≠ [] → heatmapEntry rows n n = some 100) := by
  constructor
  · intro rows n1 n2
    rw [heatmapEntry, heatmapEntry, identityPct, identityPct]
    have hlen : ((sampleVec rows n1).zip (sampleVec rows n2)).length
        = ((sampleVec rows n2).zip (sampleVec rows n1)).length := by
      rw [List.length_zip, List.length_zip, Nat.min_comm]
    simp only [matchCount_comm (sampleVec rows n1) (sampleVec rows n2), hlen]
  · intro rows n hne
    have hpos : 0 < (sampleVec rows n).length := List.length_pos.mpr hne
    have hlz : ((sampleVec rows n).zip (sampleVec rows n)).length
        = (sampleVec rows n).length := by
      rw [List.length_zip, Nat.min_self]
    rw [heatmapEntry, identityPct]
    simp only [matchCount_self, hlz]
    rw [if_pos hpos]
    congr 1
    have hq : ((sampleVec rows n).length : ℚ) ≠ 0 := by
      exact_mod_cast Nat.pos_iff_ne_zero.mp hpos
    rw [div_self hq]
    norm_num

/-- Witness for C8 at a concrete table: the diagonal entry of a sample is
100 and a symmetric pair of entries agree. -/
theorem claim8_witness :
    heatmapEntry [("A", [some "05", none]), ("B", [some "06", none])] "A" "A" = some 100 ∧
      heatmapEntry [("A", [some "05", none]), ("B", [some "06", none])] "A" "B"
        = heatmapEntry [("A", [some "05", none]), ("B", [some "06", none])] "B" "A" :=
  ⟨claim8_theorem.2 _ "A" (by decide), claim8_theorem.1 _ "A" "B"⟩

theorem digitChar_val : ∀ d : Nat, d < 10 → (Nat.digitChar d).toNat - '0'.toNat = d := by
  decide

theorem decVal_append (l : List Char) (c : Char) :
    decVal (l ++ [c]) = decVal l * 10 + (c.toNat - '0'.toNat) := by
  rw [decVal, decVal, List.foldl_append]
  rfl

theorem decVal_decDigitsAux : ∀ fuel n : Nat, n < fuel → decVal (decDigitsAux fuel n) = n := by
  intro fuel
  induction fuel with
  | zero => intro n hn; omega
  | succ f ih =>
    intro n hn
    rw [decDigitsAux]
    by_cases h : n < 10
    · rw [if_pos h]
      show 0 * 10 + ((Nat.digitChar n).toNat - '0'.toNat) = n
      rw [Nat.zero_mul, Nat.zero_add]
      exact digitChar_val n h
    · rw [if_neg h]
      rw [decVal_append, ih (n / 10) (by omega), digitChar_val (n % 10) (by omega)]
      omega

theorem natToDec_inj (m n : Nat) (h : natToDec m = natToDec n) : m = n := by
  have hd : decDigitsAux (m + 1) m = decDigitsAux (n + 1) n := by
    have := congrArg String.data h
    simpa [natToDec] using this
  have h1 := decVal_decDigitsAux (m + 1) m (by omega)
  have h2 := decVal_decDigitsAux (n + 1) n (by omega)
  rw [← h1, ← h2, hd]

theorem locusName_inj (i j : Nat) (h : locusName i = locusName j) : i = j := by
  refine natToDec_inj i j ?_
  have hd := congrArg String.data h
  simp only [locusName] at hd
  have hi : ("Locus " ++ natToDec i).data = "Locus ".data ++ (natToDec i).data := rfl
  have hj : ("Locus " ++ natToDec j).data = "Locus ".data ++ (natToDec j).data := rfl
  rw [hi, hj] at hd
  have := List.append_cancel_left hd
  cases hni : natToDec i with
  | mk di =>
    cases hnj : natToDec j with
    | mk dj =>
      rw [hni, hnj] at this
      simp at this
      rw [this]

theorem locus_not_allele (j : Nat) : strStarts (locusName j) "Allele" = false := by
  have h2 : (locusName j).data
      = 'L' :: 'o' :: 'c' :: 'u' :: 's' :: ' ' :: (natToDec j).data := rfl
  rw [strStarts, h2]
  rfl

theorem pairUp_length {α : Type} : ∀ l : List α, (pairUp l).length = l.length / 2
  | [] => by simp [pairUp]
  | [a] => by simp [pairUp]
  | a :: b :: rest => by
    have := pairUp_length rest
    simp only [pairUp, List.length_cons, this]
    omega

theorem cellVal_map_mem :
    ∀ (h : List String) (f : String → Option String) (c : String),
      c ∈ h → cellVal h (h.map f) c = f c := by
  intro h
  induction h with
  | nil => intro f c hc; cases hc
  | cons d hs ih =>
    intro f c hc
    by_cases hd : d = c
    · subst hd
      simp [cellVal]
    · rw [List.map_cons, cellVal, if_neg (by simpa using hd)]
      refine ih f c ?_
      rcases List.mem_cons.mp hc with h | h
      · exact absurd h.symm hd
      · exact h

theorem cellVal_append_left :
    ∀ (h : List String) (r : List (Option String)) (c : String)
      (ext : List String) (extv : List (Option String)),
      h.length = r.length → c ∈ h →
      cellVal (h ++ ext) (r ++ extv) c = cellVal h r c := by
  intro h
  induction h with
  | nil => intro r c ext extv _ hc; cases hc
  | cons d hs ih =>
    intro r c ext extv hlen hc
    cases r with
    | nil => simp at hlen
    | cons v rs =>
      by_cases hd : (d == c) = true
      · simp [cellVal, hd]
      · rw [List.cons_append, List.cons_append, cellVal, if_neg hd, cellVal, if_neg hd]
        refine ih rs c ext extv (by simpa using hlen) ?_
        rcases List.mem_cons.mp hc with h | h
        · exact absurd (by simp [h]) hd
        · exact h

theorem cellVal_append_right :
    ∀ (h : List String) (r : List (Option String)) (c : String)
      (ext : List String) (extv : List (Option String)),
      h.length = r.length → c ∉ h →
      cellVal (h ++ ext) (r ++ extv) c = cellVal ext extv c := by
  intro h
  induction h with
  | nil =>
    intro r c ext extv hlen _
    have : r = [] := by
      cases r
      · rfl
      · simp at hlen
    subst this
    rfl
  | cons d hs ih =>
    intro r c ext extv hlen hc
    cases r with
    | nil => simp at hlen
    | cons v rs =>
      have hd : (d == c) = false := by
        refine beq_eq_false_iff_ne.mpr ?_
        intro hdc
        exact hc (by rw [hdc]; exact List.mem_cons_self _ _)
      rw [List.cons_append, List.cons_append, cellVal, if_neg (by simp [hd])]
      exact ih rs c ext extv (by simpa using hlen)
        (fun hmem => hc (List.mem_cons_of_mem _ hmem))

theorem cellVal_index :
    ∀ (names : List String) (vals : List (Option String)) (i : Nat) (c : String)
      (v : Option String),
      names.Nodup → names[i]? = some c → vals[i]? = some v →
      cellVal names vals c = v := by
  intro names
  induction names with
  | nil => intro vals i c v _ hn; simp at hn
  | cons d ds ih =>
    intro vals i c v hnd hn hv
    cases vals with
    | nil => simp at hv
    | cons w ws =>
      cases i with
      | zero =>
        simp only [List.getElem?_cons_zero, Option.some.injEq] at hn hv
        subst hn
        subst hv
        simp [cellVal]
      | succ k =>
        simp only [List.getElem?_cons_succ] at hn hv
        have hc : c ∈ ds := by
          rcases List.getElem?_eq_some.mp hn with ⟨hlt, hget⟩
          rw [← hget]
          exact List.getElem_mem hlt
        have hd : (d == c) = false := by
          refine beq_eq_false_iff_ne.mpr ?_
          intro hdc
          subst hdc
          exact (List.nodup_cons.mp hnd).1 hc
        rw [cellVal, if_neg (by simp [hd])]
        exact ih ws k c v (List.nodup_cons.mp hnd).2 hn hv

/-- Closed form of the merge assignment loop: when none of the Locus names
it writes is already a column, every step appends one column on the right,
so the loop appends the Locus columns in order with their per-row combined
values. -/
theorem addLoci_eq (t : DTable) :
    ∀ (ps : List (String × String)) (i : Nat) (hdr : List String)
      (g : List (Option String) → List (Option String)),
      (∀ j, i ≤ j → j < i + ps.length → locusName j ∉ hdr) →
      (∀ r, (g r).length = hdr.length) →
      addLoci t ⟨hdr, t.rows.map g⟩ i ps =
        ⟨hdr ++ (List.range ps.length).map (fun k => locusName (i + k)),
         t.rows.map (fun r => g r ++ ps.map (fun ab =>
           some (combine (cellVal t.header r ab.1) (cellVal t.header r ab.2))))⟩ := by
  intro ps
  induction ps with
  | nil =>
    intro i hdr g _ _
    simp [addLoci]
  | cons ab rest ih =>
    obtain ⟨a, b⟩ := ab
    intro i hdr g hfresh hlen
    rw [addLoci]
    have hni : locusName i ∉ hdr := by
      refine hfresh i le_rfl ?_
      simp only [List.length_cons]
      omega
    have hassign :
        assignCol ⟨hdr, t.rows.map g⟩ (locusName i)
            (t.rows.map (fun r => some (combine (cellVal t.header r a) (cellVal t.header r b))))
          = ⟨hdr ++ [locusName i],
             t.rows.map (fun r =>
               g r ++ [some (combine (cellVal t.header r a) (cellVal t.header r b))])⟩ := by
      rw [assignCol]
      rw [if_neg hni]
      refine congrArg (DTable.mk (hdr ++ [locusName i])) ?_
      rw [List.zip_map', List.map_map]
      rfl
    rw [hassign]
    have hfresh' : ∀ j, i + 1 ≤ j → j < (i + 1) + rest.length →
        locusName j ∉ hdr ++ [locusName i] := by
      intro j hj1 hj2
      simp only [List.mem_append, List.mem_singleton]
      rintro (h | h)
      · exact hfresh j (by omega) (by simp only [List.length_cons]; omega) h
      · have := locusName_inj j i h
        omega
    have hlen' : ∀ r, (g r ++ [some (combine (cellVal t.header r a) (cellVal t.header r b))]).length
        = (hdr ++ [locusName i]).length := by
      intro r
      simp [hlen r]
    have := ih (i + 1) (hdr ++ [locusName i])
      (fun r => g r ++ [some (combine (cellVal t.header r a) (cellVal t.header r b))])
      hfresh' hlen'
    rw [this]
    refine congrArg₂ DTable.mk ?_ ?_
    · rw [List.append_assoc]
      refine congrArg (hdr ++ ·) ?_
      simp only [List.length_cons]
      rw [List.range_succ_eq_map, List.map_cons, List.map_map]
      refine congrArg₂ List.cons (by rw [Nat.add_zero]) ?_
      refine List.map_congr_left ?_
      intro k _
      simp only [Function.comp_apply]
      refine congrArg locusName ?_
      omega
    · refine List.map_congr_left ?_
      intro r _
      rw [List.append_assoc]
      rfl

/-- Closed form of merge_genotypes when no written Locus name is already a
column of the input. -/
theorem mergeGenotypes_eq (t : DTable)
    (hfresh : ∀ j < (pairUp (t.header.filter (fun c => strStarts c "Allele"))).length,
      locusName (j + 1) ∉ t.header) :
    mergeGenotypes t =
      ⟨t.header.filter (fun c => !strStarts c "Allele") ++
        (List.range (pairUp (t.header.filter (fun c => strStarts c "Allele"))).length).map
          (fun k => locusName (1 + k)),
       t.rows.map (fun r =>
         (t.header.filter (fun c => !strStarts c "Allele")).map (fun c => cellVal t.header r c)
           ++ (pairUp (t.header.filter (fun c => strStarts c "Allele"))).map
             (fun ab => some (combine (cellVal t.header r ab.1) (cellVal t.header r ab.2))))⟩ := by
  have hfresh' : ∀ j, 1 ≤ j →
      j < 1 + (pairUp (t.header.filter (fun c => strStarts c "Allele"))).length →
      locusName j ∉ t.header.filter (fun c => !strStarts c "Allele") := by
    intro j hj1 hj2 hmem
    have hj : (j - 1) + 1 = j := by omega
    have := hfresh (j - 1) (by omega)
    rw [hj] at this
    exact this (List.mem_of_mem_filter hmem)
  have hlen' : ∀ r : List (Option String),
      ((t.header.filter (fun c => !strStarts c "Allele")).map
        (fun c => cellVal t.header r c)).length
        = (t.header.filter (fun c => !strStarts c "Allele")).length := by
    intro r
    simp
  rw [mergeGenotypes]
  exact addLoci_eq t (pairUp (t.header.filter (fun c => strStarts c "Allele"))) 1
    (t.header.filter (fun c => !strStarts c "Allele"))
    (fun r => (t.header.filter (fun c => !strStarts c "Allele")).map
      (fun c => cellVal t.header r c))
    hfresh' hlen'

/-- Counterexample to C10: on an input that already carries a column named
"Locus 1" (a name that does not start with "Allele"), merge_genotypes
overwrites that kept column in place instead of appending a new one: the
result has a single column whose value changed, where the claim promises
two columns and an unchanged "Locus 1". -/
theorem claim10_counterexample :
    mergeGenotypes tClash = ⟨["Locus 1"], [[some "05/06"]]⟩ ∧
      getCol (mergeGenotypes tClash) "Locus 1" ≠ getCol tClash "Locus 1" ∧
      (mergeGenotypes tClash).header.length ≠ 2 := by decide

/-- C10 amended: for every input table none of whose columns is named
"Locus i" for 1 ≤ i ≤ floor(n/2) (n the number of "Allele" columns),
merge_genotypes keeps the row count, keeps every non-"Allele" column (same
names, same order, unchanged values), drops every "Allele" column, and
appends exactly floor(n/2) new "Locus i" columns on the right. -/
theorem claim10_theorem (t : DTable)
    (hfresh : ∀ j < (pairUp (t.header.filter (fun c => strStarts c "Allele"))).length,
      locusName (j + 1) ∉ t.header) :
    (mergeGenotypes t).rows.length = t.rows.length ∧
    (mergeGenotypes t).header
      = t.header.filter (fun c => !strStarts c "Allele")
          ++ (List.range ((t.header.filter (fun c => strStarts c "Allele")).length / 2)).map
            (fun k => locusName (1 + k)) ∧
    (∀ c ∈ t.header, strStarts c "Allele" = false →
      getCol (mergeGenotypes t) c = getCol t c) ∧
    (∀ c ∈ (mergeGenotypes t).header, strStarts c "Allele" = false) := by
  have hm := mergeGenotypes_eq t hfresh
  refine ⟨?_, ?_, ?_, ?_⟩
  · rw [hm]
    simp
  · rw [hm, ← pairUp_length]
  · intro c hc hall
    rw [hm, getCol, getCol]
    show (t.rows.map _).map _ = _
    rw [List.map_map]
    refine List.map_congr_left ?_
    intro r _
    simp only [Function.comp_apply]
    have hkeep : c ∈ t.header.filter (fun x => !strStarts x "Allele") :=
      List.mem_filter.mpr ⟨hc, by simp [hall]⟩
    rw [cellVal_append_left _ _ _ _ _ (by simp) hkeep]
    exact cellVal_map_mem _ _ _ hkeep
  · intro c hcm
    rw [hm] at hcm
    rcases List.mem_append.mp hcm with h | h
    · have := List.mem_filter.mp h
      simpa using this.2
    · rcases List.mem_map.mp h with ⟨k, _, rfl⟩
      exact locus_not_allele (1 + k)

/-- Witness for the amended C10 at a concrete table. -/
theorem claim10_witness :
    (mergeGenotypes twTen).rows.length = twTen.rows.length ∧
      getCol (mergeGenotypes twTen) "Sample Name" = getCol twTen "Sample Name" :=
  ⟨(claim10_theorem twTen (by decide)).1,
   (claim10_theorem twTen (by decide)).2.2.1 "Sample Name" (by decide) (by decide)⟩

/-- Counterexample to C4: the code runs `replace("nan", "")`, which deletes
every occurrence of the substring "nan", not only a value equal to the
literal "nan". On the value "nana" the code produces "a", while the
claimed rule (normalise only the literal value "nan") keeps "nana". -/
theorem claim4_counterexample :
    getCol (mergeGenotypes tNan) (locusName 1) = [some "a"] ∧
      claimedCombine (some "nana") none = "nana" ∧
      ("a" : String) ≠ "nana" := by decide

/-- C4 amended: with no pre-existing "Locus i" column, the merged column
`Locus (i+1)` holds, for each row, the combination of the i-th adjacent
pair of "Allele" columns in canonical order (odd trailing column dropped by
the pairing), where each value is stripped, cut to the suffix after the
last underscore, and has every occurrence of the substring "nan" deleted
(not just the literal value "nan"), and the two values then combine as:
both empty gives "", one empty gives the other, equal values give that
value, different values give "v1/v2" in column order. -/
theorem claim4_theorem (t : DTable)
    (hfresh : ∀ j < (pairUp (t.header.filter (fun c => strStarts c "Allele"))).length,
      locusName (j + 1) ∉ t.header)
    (i : Nat) (hi : i < (pairUp (t.header.filter (fun c => strStarts c "Allele"))).length) :
    getCol (mergeGenotypes t) (locusName (i + 1)) =
      t.rows.map (fun r =>
        some (combine
          (cellVal t.header r
            ((pairUp (t.header.filter (fun c => strStarts c "Allele"))).get ⟨i, hi⟩).1)
          (cellVal t.header r
            ((pairUp (t.header.filter (fun c => strStarts c "Allele"))).get ⟨i, hi⟩).2))) := by
  have hm := mergeGenotypes_eq t hfresh
  rw [hm, getCol]
  show (t.rows.map _).map _ = _
  rw [List.map_map]
  refine List.map_congr_left ?_
  intro r _
  simp only [Function.comp_apply]
  have hnotin : locusName (i + 1) ∉ t.header.filter (fun c => !strStarts c "Allele") := by
    intro hmem
    exact hfresh i hi (List.mem_of_mem_filter hmem)
  rw [cellVal_append_right _ _ _ _ _ (by simp) hnotin]
  refine cellVal_index _ _ i _ _ ?_ ?_ ?_
  · refine List.Nodup.map ?_ (List.nodup_range _)
    intro x y hxy
    have := locusName_inj _ _ hxy
    omega
  · rw [List.getElem?_map, List.getElem?_range hi]
    rw [Option.map_some']
    rw [Nat.add_comm]
  · rw [List.getElem?_map, List.getElem?_eq_getElem hi]
    rfl

/-- Witness for the amended C4 at a concrete table: the Locus 1 column is
the pairwise combination "05/06". -/
theorem claim4_witness :
    getCol (mergeGenotypes twFour) (locusName 1) = [some "05/06"] := by
  have h := claim4_theorem twFour (by decide) 0 (by decide)
  rw [h]
  decide

/-- Counterexample to C1: the code has no global pre-pass assigning Error
to samples with an empty signature that are not negative controls. The
sample `noPrepassRow` has an empty signature and is not a negative control,
yet intra-patient classification gives it status Warning "Echantillon
unique" (unique sample), not Error — and no "no alleles found" description
exists anywhere in the engine. -/
theorem claim1_counterexample :
    intraComparison [noPrepassRow]
        = [⟨"P7", "P7", false, "indéterminé", [], "h0", "warning", "Echantillon unique"⟩] ∧
      ("warning" : String) ≠ "error" := by decide

/-- C1 amended: there is no global pre-pass; a sample with empty signature
that is not a negative control is classified by the per-group rules alone.
A singleton such sample gets Warning "Echantillon unique"; in a group of
several samples with uniform signatures and uniform sex it simply keeps its
Success status. -/
theorem claim1_theorem (rows : List PRow)
    (hprep : ∀ x ∈ rows, x.statusType = "success")
    (r : PRow) (hr : r ∈ rows)
    (hsig : r.signature = []) (hneg : r.isNeg = false) :
    ((patientGroup rows r.patient).length = 1 →
      intraResult rows r =
        { r with statusType := "warning", statusDescription := "Echantillon unique" }) ∧
    (1 < (patientGroup rows r.patient).length →
      (pandasUnique ((patientGroup rows r.patient).map (·.signature))).length = 1 →
      (pandasUnique ((patientGroup rows r.patient).map (·.genre))).length = 1 →
      intraResult rows r = r) := by
  have hst := hprep r hr
  constructor
  · intro hlen
    have hg := patientGroup_eq_singleton rows r hr hlen
    rw [intraResult, hg]
    simp [groupStatusUpdate, headNeg, hneg, applyUpdate, pandasUnique, uniqueAux, hst]
  · intro hlen hsigs hgens
    have hlen1 : ((patientGroup rows r.patient).length = 1) = False := by
      simp only [eq_iff_iff, iff_false]
      omega
    have hsig' : ¬ 1 < (pandasUnique ((patientGroup rows r.patient).map (·.signature))).length := by
      omega
    have hgen' : ¬ 1 < (pandasUnique ((patientGroup rows r.patient).map (·.genre))).length := by
      omega
    rw [intraResult]
    simp [groupStatusUpdate, applyUpdate, hlen1, hsig', hgen']

/-- Witness for the amended C1 at a concrete table: a lone sample with no
alleles and no negative-control name is merely a Warning. -/
theorem claim1_witness :
    intraResult [noPrepassRow] noPrepassRow
      = ⟨"P7", "P7", false, "indéterminé", [], "h0", "warning", "Echantillon unique"⟩ :=
  (claim1_theorem _ (by decide) _ (by decide) (by decide) (by decide)).1 (by decide)

/-- Witness for C3 at a concrete table: two samples of one patient with
different signatures are both flagged "Incohérente de SNPs". -/
theorem claim3_witness :
    intraResult
        [⟨"P1", "P1", false, "femme", ["05"], "h1", "success", ""⟩,
         ⟨"P1bis", "P1", false, "femme", ["06"], "h2", "success", ""⟩]
        ⟨"P1", "P1", false, "femme", ["05"], "h1", "success", ""⟩
      = ⟨"P1", "P1", false, "femme", ["05"], "h1", "error", "Incohérente de SNPs"⟩ :=
  (claim3_theorem _ (by decide) _ (by decide) (by decide)).1 (by decide)
